import Mathlib

/-!
Verification of the reliable report transmission subsystem: the deterministic
transmission scheduler (Go package `transmission`) and the per-server delivery
pipeline (Go package `mercurytransmitter`, `server.go`).

Durations (`time.Duration`) are `int64` nanosecond counts and are modelled as
`Int` with explicit two's-complement wrapping where the source multiplies.
External collaborators (the wire client, the report packers, the libocr
permutation engine, the keccak hash) are modelled as explicit function
parameters, exactly as the spec describes their contracts.
-/

namespace transmission

/-- Peer identifiers (`types.PeerID`, a 32-byte p2p identifier defined outside
the provided sources); modelled as an identifier type with decidable equality. -/
abbrev PeerID := String

/-- Modelled from the spec: the 128-bit permutation key (`[16]byte`) produced by
`transmissionScheduleSeed`; the keccak256 hash it truncates lives in
`golang.org/x/crypto` and is outside the provided sources, so keys are
abstracted and the seed derivation is passed in as a deterministic function. -/
abbrev Seed := Nat

/-- Two's-complement wrap-around of `int64` arithmetic (`time.Duration` is an
`int64` count of nanoseconds). -/
def int64wrap (x : Int) : Int := (x + 2 ^ 63) % 2 ^ 64 - 2 ^ 63

/-- `time.Duration(i) * deltaStage`: `int64` multiplication, wrapping on
overflow. -/
def durMul (a b : Int) : Int := int64wrap (a * b)

/-- `Schedule_AllAtOnce`: schedule shape `S = [N]`. -/
def Schedule_AllAtOnce : String := "allAtOnce"

/-- `Schedule_OneAtATime`: schedule shape `S = [1 * N]`. -/
def Schedule_OneAtATime : String := "oneAtATime"

/-- `TransmissionConfig`: a schedule name plus `DeltaStage` in nanoseconds. -/
structure TransmissionConfig where
  Schedule : String
  DeltaStage : Int

/-- The two string fields `ExtractTransmissionConfig` unwraps from the request's
free-form `values.Map` (`UnwrapTo` of the external `values` package); an absent
key unwraps to the empty string. -/
structure RawTransmissionConfig where
  DeltaStage : String
  Schedule : String

/-- `leadingInt` (Go `time` package): consume `[0-9]*` into a `uint64`
accumulator, erroring on overflow past `1<<63`. -/
def leadingInt : List Char → Nat → Except Unit (Nat × List Char)
  | [], x => .ok (x, [])
  | c :: rest, x =>
    if c < '0' ∨ c > '9' then .ok (x, c :: rest)
    else if x > 2 ^ 63 / 10 then .error ()
    else
      let x1 := x * 10 + (c.toNat - '0'.toNat)
      if x1 > 2 ^ 63 then .error ()
      else leadingInt rest x1

/-- `leadingFraction` (Go `time` package): consume `[0-9]*` after the decimal
point, tracking the scale (a power of ten) and ignoring further digits once the
accumulator would overflow. Go keeps the scale as a `float64`; powers of ten up
to the overflow bound are exact there, so a `Nat` scale is faithful. -/
def leadingFraction : List Char → Nat → Nat → Bool → Nat × Nat × List Char
  | [], x, scale, _ => (x, scale, [])
  | c :: rest, x, scale, overflow =>
    if c < '0' ∨ c > '9' then (x, scale, c :: rest)
    else if overflow then leadingFraction rest x scale overflow
    else if x > (2 ^ 63 - 1) / 10 then leadingFraction rest x scale true
    else
      let y := x * 10 + (c.toNat - '0'.toNat)
      if y > 2 ^ 63 then leadingFraction rest x scale true
      else leadingFraction rest y (scale * 10) false

/-- The `unitMap` of Go's `time.ParseDuration`. -/
def unitMapLookup (u : List Char) : Option Nat :=
  if u = ['n', 's'] then some 1
  else if u = ['u', 's'] then some 1000
  else if u = ['µ', 's'] then some 1000
  else if u = ['μ', 's'] then some 1000
  else if u = ['m', 's'] then some 1000000
  else if u = ['s'] then some 1000000000
  else if u = ['m'] then some 60000000000
  else if u = ['h'] then some 3600000000000
  else none

/-- Length of the unit token: leading characters that are not `[0-9.]`. -/
def unitLen : List Char → Nat
  | [] => 0
  | c :: rest => if c = '.' ∨ ('0' ≤ c ∧ c ≤ '9') then 0 else unitLen rest + 1

/-- The main loop of Go's `time.ParseDuration`, over the remaining characters
and the accumulated `uint64` nanosecond count. Each pass consumes at least one
character, so `fuel := length + 1` never runs out; the fractional contribution
`uint64(float64(f) * (float64(unit)/scale))` is computed exactly over `Nat`. -/
def parseDurationLoop : Nat → List Char → Nat → Except String Nat
  | 0, _, _ => .error "time: invalid duration"
  | _ + 1, [], d => .ok d
  | fuel + 1, c :: rest, d =>
    if ¬(c = '.' ∨ ('0' ≤ c ∧ c ≤ '9')) then .error "time: invalid duration"
    else
      match leadingInt (c :: rest) 0 with
      | .error _ => .error "time: invalid duration"
      | .ok (v, s1) =>
        let pre : Bool := decide (s1.length ≠ (c :: rest).length)
        let fr : Nat × Nat × List Char × Bool :=
          match s1 with
          | '.' :: s1t =>
            let r := leadingFraction s1t 0 1 false
            (r.1, r.2.1, r.2.2, decide (r.2.2.length ≠ s1t.length))
          | _ => (0, 1, s1, false)
        match fr with
        | (f, scale, s2, post) =>
          if pre = false ∧ post = false then .error "time: invalid duration"
          else
            let i := unitLen s2
            if i = 0 then .error "time: missing unit in duration"
            else
              match unitMapLookup (s2.take i) with
              | none => .error "time: unknown unit in duration"
              | some unit =>
                if v > 2 ^ 63 / unit then .error "time: invalid duration"
                else
                  let v1 := v * unit
                  if f > 0 ∧ v1 + f * unit / scale > 2 ^ 63 then
                    .error "time: invalid duration"
                  else
                    let v2 := if f > 0 then v1 + f * unit / scale else v1
                    if d + v2 > 2 ^ 63 then .error "time: invalid duration"
                    else parseDurationLoop fuel (s2.drop i) (d + v2)

/-- Go's `time.ParseDuration`: `[-+]?([0-9]*(\.[0-9]*)?[a-z]+)+`, returning a
signed nanosecond count. -/
def ParseDuration (s : String) : Except String Int :=
  let cs := s.data
  let signed : Bool × List Char :=
    match cs with
    | c :: rest =>
      if c = '-' then (true, rest)
      else if c = '+' then (false, rest)
      else (false, c :: rest)
    | [] => (false, [])
  match signed with
  | (neg, cs1) =>
    if cs1 = ['0'] then .ok 0
    else if cs1 = [] then .error ("time: invalid duration " ++ s)
    else
      match parseDurationLoop (cs1.length + 1) cs1 0 with
      | .error e => .error (e ++ " " ++ s)
      | .ok d =>
        if neg then .ok (-(Int.ofNat d))
        else if d > 2 ^ 63 - 1 then .error ("time: invalid duration " ++ s)
        else .ok (Int.ofNat d)

/-- `ExtractTransmissionConfig`: default to `{allAtOnce, 0}` when both fields
are empty, otherwise parse `DeltaStage` as a duration. -/
def ExtractTransmissionConfig (config : RawTransmissionConfig) :
    Except String TransmissionConfig :=
  if config.Schedule.length = 0 ∧ config.DeltaStage.length = 0 then
    .ok ⟨Schedule_AllAtOnce, 0⟩
  else
    match ParseDuration config.DeltaStage with
    | .error e =>
      .error ("failed to parse DeltaStage " ++ config.DeltaStage ++ " as duration: " ++ e)
    | .ok duration => .ok ⟨config.Schedule, duration⟩

/-- `createTransmissionSchedule`: `[N]` for allAtOnce, `N` ones for oneAtATime,
error on any other schedule name. -/
def createTransmissionSchedule (scheduleType : String) (N : Nat) :
    Except String (List Int) :=
  if scheduleType = Schedule_AllAtOnce then .ok [(N : Int)]
  else if scheduleType = Schedule_OneAtATime then .ok (List.replicate N 1)
  else .error ("unknown schedule type " ++ scheduleType)

/-- The loop body of `delayFor`: walk the schedule accumulating the running
`sum`, returning `time.Duration(i) * deltaStage` at the first bucket whose
cumulative size exceeds the rank. -/
def delayForGo (rank deltaStage : Int) : List Int → Int → Nat → Option Int
  | [], _, _ => none
  | s :: rest, sum, i =>
    if rank < sum + s then some (durMul (i : Int) deltaStage)
    else delayForGo rank deltaStage rest (sum + s) (i + 1)

/-- `delayFor`: the rank of `position` is `permutation[position]`. -/
def delayFor (position : Nat) (schedule : List Int) (permutation : List Nat)
    (deltaStage : Int) : Option Int :=
  delayForGo ((permutation.getD position 0 : Nat) : Int) deltaStage schedule 0 0

/-- Insertion into the Go `map[types.PeerID]time.Duration`: overwrite an
existing key, otherwise add the binding. -/
def mapInsert (m : List (PeerID × Int)) (k : PeerID) (v : Int) :
    List (PeerID × Int) :=
  if m.any (fun e => e.1 == k) then
    m.map (fun e => if e.1 == k then (k, v) else e)
  else m ++ [(k, v)]

/-- The peer loop of `GetPeerIDToTransmissionDelaysForConfig`: for each peer at
input position `i`, insert its delay when `delayFor` yields one. -/
def buildDelayMap (schedule : List Int) (picked : List Nat) (deltaStage : Int) :
    List (PeerID × Int) → Nat → List PeerID → List (PeerID × Int)
  | m, _, [] => m
  | m, i, pid :: rest =>
    match delayFor i schedule picked deltaStage with
    | some delay =>
      buildDelayMap schedule picked deltaStage (mapInsert m pid delay) (i + 1) rest
    | none => buildDelayMap schedule picked deltaStage m (i + 1) rest

/-- `GetPeerIDToTransmissionDelaysForConfig`. The external collaborators are
passed in: `permutationFn` models `permutation.Permutation` of libocr (the spec
guarantees it is a deterministic permutation of `[0..N)`), and `seedFn` models
`transmissionScheduleSeed` (a deterministic keccak-derived key). -/
def GetPeerIDToTransmissionDelaysForConfig
    (permutationFn : Nat → Seed → List Nat) (seedFn : String → Seed)
    (donPeerIDs : List PeerID) (transmissionID : String)
    (tc : TransmissionConfig) : Except String (List (PeerID × Int)) :=
  let donMemberCount := donPeerIDs.length
  let key := seedFn transmissionID
  match createTransmissionSchedule tc.Schedule donMemberCount with
  | .error e => .error e
  | .ok schedule =>
    let picked := permutationFn donMemberCount key
    .ok (buildDelayMap schedule picked tc.DeltaStage [] 0 donPeerIDs)

/-- The entries produced by the peer loop when every insert is fresh: the pure
append-only image of the loop, used to reason about `buildDelayMap` under
distinct peer IDs. -/
def delayEntriesFrom (schedule : List Int) (picked : List Nat) (deltaStage : Int) :
    Nat → List PeerID → List (PeerID × Int)
  | _, [] => []
  | i, pid :: rest =>
    match delayFor i schedule picked deltaStage with
    | some delay => (pid, delay) :: delayEntriesFrom schedule picked deltaStage (i + 1) rest
    | none => delayEntriesFrom schedule picked deltaStage (i + 1) rest

end transmission

namespace mercurytransmitter

/-- Modelled from the spec: the `llotypes.ReportFormat` numeric constant for
JSON reports (`chainlink-common` is outside the provided sources; only the
distinctness of the constants matters). -/
def ReportFormatJSON : Nat := 1

/-- Modelled from the spec: the `llotypes.ReportFormat` numeric constant for
EVM premium-legacy reports. -/
def ReportFormatEVMPremiumLegacy : Nat := 2

/-- Modelled from the spec: the mercury server response code denoting a
duplicate report (`DuplicateReport`, declared elsewhere in the
`mercurytransmitter` package); only its distinguishedness matters. -/
def DuplicateReport : Int := 2

/-- A transmission record's 32-byte content hash, abstracted. -/
abbrev Hash := Nat

/-- Modelled from the spec: a transmission record `{ConfigDigest, SeqNr,
ReportFormat, ReportBytes, Signatures}` plus its derived content hash
(`Transmission.Hash()` is declared elsewhere in the package); payload-like
fields are abstracted as byte lists. -/
structure Transmission where
  reportFormat : Nat
  configDigest : Nat
  seqNr : Nat
  report : List Nat
  sigs : List Nat
  hash : Hash

/-- Modelled from the spec: `pb.TransmitRequest` — the packed payload plus the
report format. -/
structure TransmitRequest where
  payload : List Nat
  reportFormat : Nat

/-- Modelled from the spec: `pb.TransmitResponse` — an error string plus an
`int32` response code. -/
structure TransmitResponse where
  error : String
  code : Int

/-- A report packer (`ReportPacker.Pack`), supplied externally per wire
format. -/
abbrev Packer := Nat → Nat → List Nat → List Nat → Except String (List Nat)

/-- Result of one `server.transmit` call: the `(req, res, err)` triple of the
source, plus a ghost flag recording whether the wire client was invoked. -/
structure TransmitAttempt where
  req : Option TransmitRequest
  res : Option TransmitResponse
  err : Option String
  networkCalled : Bool

/-- The pack-then-send tail of `server.transmit` shared by both supported
formats: a pack error returns before any network call; otherwise the request is
sent through the wire client (modelled as an oracle for this attempt). -/
def packAndSend (packer : Packer)
    (client : TransmitRequest → Except String TransmitResponse)
    (t : Transmission) : TransmitAttempt :=
  match packer t.configDigest t.seqNr t.report t.sigs with
  | .error e => ⟨none, none, some ("Transmit: encode failed; " ++ e), false⟩
  | .ok payload =>
    match client ⟨payload, t.reportFormat⟩ with
    | .ok resp => ⟨some ⟨payload, t.reportFormat⟩, some resp, none, true⟩
    | .error e => ⟨some ⟨payload, t.reportFormat⟩, none, some e, true⟩

/-- `server.transmit`: dispatch on the report format; an unrecognized format
returns `(nil, nil, err)` without packing and without any network call. -/
def transmit (jsonPacker evmPremiumLegacyPacker : Packer)
    (client : TransmitRequest → Except String TransmitResponse)
    (t : Transmission) : TransmitAttempt :=
  if t.reportFormat = ReportFormatJSON then packAndSend jsonPacker client t
  else if t.reportFormat = ReportFormatEVMPremiumLegacy then
    packAndSend evmPremiumLegacyPacker client t
  else ⟨none, none, some "Transmit failed; unsupported report format", false⟩

/-- The observable state touched by one iteration of `runQueueLoop`: the
transmit queue (an external collaborator, modelled as the list of records it
holds plus its closed flag; `Push` appends and fails when closed), the bounded
`deleteQueue` channel (contents plus capacity), the prometheus counters, and
the backoff attempt counter of the loop's `backoff.Backoff`. -/
structure LoopState where
  queue : List Transmission
  queueClosed : Bool
  deleteQueue : List Hash
  deleteQueueCap : Nat
  successCount : Nat
  duplicateCount : Nat
  connectionErrorCount : Nat
  serverErrorCount : Int → Nat
  backoffAttempt : Nat

/-- The non-blocking send on the bounded `deleteQueue` channel
(`select { case s.deleteQueue <- t.Hash(): default: ... }`): drop the deletion
request, with a critical-severity log, when the channel is full. -/
def deletePush (st : LoopState) (h : Hash) : LoopState :=
  if st.deleteQueue.length < st.deleteQueueCap then
    { st with deleteQueue := st.deleteQueue ++ [h] }
  else st

/-- Outcome of one iteration of `runQueueLoop`: `stop` when the closure returns
`false` (loop exit), `next` when it returns `true`; `backoffWaited` records
whether the iteration slept a backoff interval before the next pop. -/
inductive IterResult where
  | stop (st : LoopState)
  | next (st : LoopState) (backoffWaited : Bool)
  | panicked (st : LoopState)

/-- One iteration of `runQueueLoop`: pop (`none` means the queue was closed),
transmit, then classify. `ctxCancelled` is the loop context derived from the
server stop channel (cancelled only on transmitter close);
`stopDuringBackoff` tells whether the stop channel fires during the backoff
wait after a failed send. In the error branch the `Errorw` call reads
`req.Payload`: when `transmit` returned a nil request (unsupported format or
pack error) this dereferences a nil pointer and the goroutine panics — after
the connection-error counter increment but before the queue push — modelled by
the `panicked` outcome carrying the state at the moment of the panic. -/
def runQueueIteration (jsonPacker evmPremiumLegacyPacker : Packer)
    (client : TransmitRequest → Except String TransmitResponse)
    (st : LoopState) (popped : Option Transmission)
    (ctxCancelled stopDuringBackoff : Bool) : IterResult :=
  match popped with
  | none => .stop st
  | some t =>
    let a := transmit jsonPacker evmPremiumLegacyPacker client t
    if ctxCancelled then .stop st
    else
      match a.err with
      | some _ =>
        let st1 := { st with connectionErrorCount := st.connectionErrorCount + 1 }
        match a.req with
        | none => .panicked st1
        | some _ =>
          if st1.queueClosed then .stop st1
          else
            let st2 := { st1 with queue := st1.queue ++ [t],
                                  backoffAttempt := st1.backoffAttempt + 1 }
            if stopDuringBackoff then .stop st2 else .next st2 true
      | none =>
        let st1 := { st with backoffAttempt := 0 }
        let res := a.res.getD ⟨"", 0⟩
        let st2 :=
          if res.error = "" then
            { st1 with successCount := st1.successCount + 1 }
          else if res.code = DuplicateReport then
            { st1 with successCount := st1.successCount + 1,
                       duplicateCount := st1.duplicateCount + 1 }
          else
            { st1 with serverErrorCount := fun c =>
                if c = res.code then st1.serverErrorCount c + 1
                else st1.serverErrorCount c }
        .next (deletePush st2 t.hash) false

/-- The `jpillora/backoff` configuration carried by each loop. -/
structure Backoff where
  Min : Int
  Max : Int
  Factor : ℚ
  Jitter : Bool

/-- The (possibly jittered) raw duration of `Backoff.ForAttempt`, over exact
rationals in place of `float64`: `durf := min * factor^attempt`, jittered to
`rand*(durf-min)+min` where `rand` is the `rand.Float64()` sample in `[0,1)`. -/
def bJitterVal (mn : Int) (factor : ℚ) (jitter : Bool) (attempt : Nat)
    (rand : ℚ) : ℚ :=
  if jitter then rand * ((mn : ℚ) * factor ^ attempt - (mn : ℚ)) + (mn : ℚ)
  else (mn : ℚ) * factor ^ attempt

/-- The core of `Backoff.ForAttempt` after defaulting: short-circuit when
`min >= max`, guard against `int64` overflow, convert the raw duration to a
`time.Duration` (truncation) and clamp it to `[min, max]`. -/
def bForAttemptCore (mn mx : Int) (factor : ℚ) (jitter : Bool) (attempt : Nat)
    (rand : ℚ) : Int :=
  if mn ≥ mx then mx
  else
    if bJitterVal mn factor jitter attempt rand >
        ((9223372036854775807 - 512 : Int) : ℚ) then mx
    else
      if ⌊bJitterVal mn factor jitter attempt rand⌋ < mn then mn
      else if ⌊bJitterVal mn factor jitter attempt rand⌋ > mx then mx
      else ⌊bJitterVal mn factor jitter attempt rand⌋

/-- `Backoff.ForAttempt` with the library's defaulting of non-positive
`Min`/`Max`/`Factor`. -/
def Backoff.forAttempt (b : Backoff) (attempt : Nat) (rand : ℚ) : Int :=
  bForAttemptCore (if b.Min ≤ 0 then 100000000 else b.Min)
    (if b.Max ≤ 0 then 10000000000 else b.Max)
    (if b.Factor ≤ 0 then 2 else b.Factor) b.Jitter attempt rand

/-- The transmit loop's backoff from `runQueueLoop`:
`{Min: 5ms, Max: 1s, Factor: 2, Jitter: true}` (nanoseconds). -/
def transmitBackoff : Backoff := ⟨5000000, 1000000000, 2, true⟩

/-- The delete loop's backoff from `runDeleteQueueLoop`:
`{Min: 1s, Max: 120s, Factor: 2, Jitter: true}` (nanoseconds). -/
def deleteBackoff : Backoff := ⟨1000000000, 120000000000, 2, true⟩

/-- The state touched by the delete loop: the delete-error counter, the backoff
attempt counter, the advisory busy counter, and the hashes successfully handed
to `pm.orm.Delete`. -/
structure DeleteState where
  deleteErrorCount : Nat
  backoffAttempt : Nat
  busy : Int
  deletedHashes : List Hash

/-- The inner retry loop of `runDeleteQueueLoop` for one received hash whose
persistence `Delete` fails `fails` times and then succeeds, with no stop signal
during the backoff waits: each failure increments the error counter and sleeps
`b.Duration()` (advancing the attempt); the success breaks out, records the
deletion, resets the backoff, and releases the busy counter (which, as in the
source, is incremented once per inner iteration but decremented only once). -/
def runDeleteRetry (h : Hash) : Nat → DeleteState → DeleteState
  | 0, st =>
    { st with busy := st.busy + 1 - 1,
              backoffAttempt := 0,
              deletedHashes := st.deletedHashes ++ [h] }
  | k + 1, st =>
    runDeleteRetry h k
      { st with busy := st.busy + 1,
                deleteErrorCount := st.deleteErrorCount + 1,
                backoffAttempt := st.backoffAttempt + 1 }

/-- A packer that always succeeds with an empty payload (concrete instance for
witnesses and counterexamples). -/
def okPacker : Packer := fun _ _ _ _ => .ok []

/-- A wire client that accepts every request (empty error, code 0). -/
def clientAccepts : TransmitRequest → Except String TransmitResponse :=
  fun _ => .ok ⟨"", 0⟩

/-- A wire client that answers every request with an explicit duplicate-report
reply: non-empty error string and the `DuplicateReport` code. -/
def clientDuplicate : TransmitRequest → Except String TransmitResponse :=
  fun _ => .ok ⟨"duplicate report", DuplicateReport⟩

/-- A wire client whose reply carries the `DuplicateReport` code but an empty
error string. -/
def clientDuplicateEmptyError : TransmitRequest → Except String TransmitResponse :=
  fun _ => .ok ⟨"", DuplicateReport⟩

/-- A wire client that fails every send at the transport level. -/
def clientConnError : TransmitRequest → Except String TransmitResponse :=
  fun _ => .error "connection refused"

/-- A fresh loop state with an open queue and delete-channel capacity 8. -/
def st0 : LoopState := ⟨[], false, [], 8, 0, 0, 0, fun _ => 0, 0⟩

/-- A JSON-format transmission record. -/
def tJson : Transmission := ⟨ReportFormatJSON, 0, 1, [], [], 5⟩

/-- A transmission record with the unsupported report format `99`. -/
def tBadFormat : Transmission := ⟨99, 0, 1, [], [], 7⟩

end mercurytransmitter

namespace transmission

theorem mapInsert_fresh (m : List (PeerID × Int)) (k : PeerID) (v : Int)
    (h : ∀ e ∈ m, e.1 ≠ k) : mapInsert m k v = m ++ [(k, v)] := by
  have hany : m.any (fun e => e.1 == k) = false :=
    List.any_eq_false.mpr (fun e he => by simpa using h e he)
  simp [mapInsert, hany]

theorem buildDelayMap_eq_append (schedule : List Int) (picked : List Nat) (d : Int)
    (peers : List PeerID) :
    ∀ (m : List (PeerID × Int)) (i : Nat), peers.Nodup →
      (∀ p ∈ peers, ∀ e ∈ m, e.1 ≠ p) →
      buildDelayMap schedule picked d m i peers =
        m ++ delayEntriesFrom schedule picked d i peers := by
  induction peers with
  | nil => intro m i _ _; simp [buildDelayMap, delayEntriesFrom]
  | cons pid rest ih =>
    intro m i hnd hfresh
    obtain ⟨hpid, hndr⟩ := List.nodup_cons.mp hnd
    cases hdf : delayFor i schedule picked d with
    | none =>
      simp only [buildDelayMap, delayEntriesFrom, hdf]
      exact ih m (i + 1) hndr
        (fun p hp e he => hfresh p (List.mem_cons_of_mem _ hp) e he)
    | some delay =>
      simp only [buildDelayMap, delayEntriesFrom, hdf]
      rw [mapInsert_fresh m pid delay
        (fun e he => hfresh pid (List.mem_cons_self _ _) e he)]
      rw [ih (m ++ [(pid, delay)]) (i + 1) hndr ?_]
      · simp
      · intro p hp e he
        rcases List.mem_append.mp he with hm | hm
        · exact hfresh p (List.mem_cons_of_mem _ hp) e hm
        · have he2 : e = (pid, delay) := by simpa using hm
          subst he2
          intro hc
          have hc2 : pid = p := hc
          exact hpid (by rw [hc2]; exact hp)

theorem delayEntriesFrom_all_some (schedule : List Int) (picked : List Nat)
    (d : Int) (f : Nat → Int) (peers : List PeerID) :
    ∀ i : Nat,
      (∀ j, j < peers.length →
        delayFor (i + j) schedule picked d = some (f (i + j))) →
      (delayEntriesFrom schedule picked d i peers).map Prod.fst = peers ∧
      (delayEntriesFrom schedule picked d i peers).map Prod.snd =
        (List.range' i peers.length).map f := by
  induction peers with
  | nil => intro i _; simp [delayEntriesFrom]
  | cons pid rest ih =>
    intro i h
    have h0 : delayFor i schedule picked d = some (f i) := by
      simpa using h 0 (by simp)
    simp only [delayEntriesFrom, h0]
    have hr := ih (i + 1) (fun j hj => by
      have hh := h (j + 1) (by simpa using Nat.succ_lt_succ hj)
      rwa [show i + (j + 1) = i + 1 + j by omega] at hh)
    refine ⟨by simp [hr.1], ?_⟩
    rw [List.length_cons, List.range'_succ]
    simp [hr.2]

theorem map_getD_range (l : List Nat) :
    (List.range l.length).map (fun j => l.getD j 0) = l := by
  induction l with
  | nil => simp
  | cons x xs ih =>
    rw [List.length_cons, List.range_succ_eq_map, List.map_cons, List.map_map]
    have hc : ((fun j => (x :: xs).getD j 0) ∘ Nat.succ) = fun j => xs.getD j 0 := by
      funext j; rfl
    rw [hc, ih]
    rfl

theorem delayForGo_replicate_one (d : Int) :
    ∀ (n : Nat) (sum0 : Int) (i : Nat) (r : Int), sum0 ≤ r → r < sum0 + n →
      delayForGo r d (List.replicate n 1) sum0 i =
        some (durMul ((i : Int) + (r - sum0)) d) := by
  intro n
  induction n with
  | zero => intro sum0 i r h1 h2; simp at h2; omega
  | succ k ih =>
    intro sum0 i r h1 h2
    rw [List.replicate_succ, delayForGo]
    by_cases hlt : r < sum0 + 1
    · rw [if_pos hlt]
      have hr : r = sum0 := by omega
      subst hr
      simp
    · rw [if_neg hlt]
      rw [ih (sum0 + 1) (i + 1) r (by omega) (by push_cast at h2 ⊢; omega)]
      congr 2
      push_cast
      ring

theorem delayForGo_single (d : Int) (N : Nat) (r : Int)
    (h : r < (N : Int)) : delayForGo r d [(N : Int)] 0 0 = some 0 := by
  rw [delayForGo, if_pos (by omega)]
  have hw : durMul ((0 : Nat) : Int) d = 0 := by
    have h63 : ((0 : Int) + 2 ^ 63) % 2 ^ 64 = 2 ^ 63 :=
      Int.emod_eq_of_lt (by positivity) (by norm_num)
    simp only [durMul, int64wrap, Nat.cast_zero, zero_mul, h63]
    ring
  rw [hw]

theorem delayForGo_isSome (d : Int) (sched : List Int) :
    ∀ (sum0 : Int) (i : Nat) (r : Int), sum0 ≤ r → r < sum0 + sched.sum →
      (delayForGo r d sched sum0 i).isSome = true := by
  induction sched with
  | nil => intro sum0 i r h1 h2; simp at h2; omega
  | cons s rest ih =>
    intro sum0 i r h1 h2
    rw [delayForGo]
    by_cases hlt : r < sum0 + s
    · rw [if_pos hlt]; rfl
    · rw [if_neg hlt]
      exact ih (sum0 + s) (i + 1) r (by omega)
        (by rw [List.sum_cons] at h2; omega)

end transmission


namespace transmission

theorem map_getD_range_comp (l : List Nat) (g : Nat → Int) :
    (List.range l.length).map (fun j => g (l.getD j 0)) = l.map g := by
  conv_rhs => rw [← map_getD_range l]
  rw [List.map_map]
  rfl

/-- C1: for every list of distinct peer IDs, a config with schedule `oneAtATime`
and `DeltaStage` `d`, and a fixed transmissionID,
`GetPeerIDToTransmissionDelaysForConfig` maps each peer to a delay, and the
multiset of assigned delays is exactly `{0, d, 2d, ..., (N-1)d}` (as `int64`
duration values), each assigned to exactly one peer. The external permutation is
assumed, per its contract, to be a permutation of `[0..N)`. -/
theorem oneAtATime_delay_multiset (permutationFn : Nat → Seed → List Nat)
    (seedFn : String → Seed) (peers : List PeerID) (transmissionID : String)
    (d : Int) (hnd : peers.Nodup)
    (hperm : (permutationFn peers.length (seedFn transmissionID)).Perm
      (List.range peers.length)) :
    ∃ m, GetPeerIDToTransmissionDelaysForConfig permutationFn seedFn peers
        transmissionID ⟨Schedule_OneAtATime, d⟩ = .ok m ∧
      m.map Prod.fst = peers ∧
      (m.map Prod.snd).Perm
        ((List.range peers.length).map (fun j : Nat => durMul (j : Int) d)) := by
  have hlen : (permutationFn peers.length (seedFn transmissionID)).length =
      peers.length := hperm.length_eq.trans (List.length_range peers.length)
  have hmem : ∀ x ∈ permutationFn peers.length (seedFn transmissionID),
      x < peers.length := fun x hx => List.mem_range.mp (hperm.mem_iff.mp hx)
  have hall : ∀ j, j < peers.length →
      delayFor (0 + j) (List.replicate peers.length 1)
          (permutationFn peers.length (seedFn transmissionID)) d =
        some ((fun jj : Nat => durMul
          (((permutationFn peers.length (seedFn transmissionID)).getD jj 0 :
            Nat) : Int) d) (0 + j)) := by
    intro j hj
    simp only [Nat.zero_add]
    have hjN : (permutationFn peers.length (seedFn transmissionID)).getD j 0 <
        peers.length := by
      rw [List.getD_eq_getElem _ 0 (by omega : j <
        (permutationFn peers.length (seedFn transmissionID)).length)]
      exact hmem _ (List.getElem_mem _)
    rw [delayFor, delayForGo_replicate_one d peers.length 0 0 _
      (Int.natCast_nonneg _) (by omega)]
    norm_num
  have hsched : createTransmissionSchedule Schedule_OneAtATime peers.length =
      .ok (List.replicate peers.length 1) := by
    rw [createTransmissionSchedule, if_neg (by decide), if_pos rfl]
  have hbuild := buildDelayMap_eq_append (List.replicate peers.length 1)
    (permutationFn peers.length (seedFn transmissionID)) d peers [] 0 hnd
    (by intro p hp e he; simp at he)
  have hkv := delayEntriesFrom_all_some (List.replicate peers.length 1)
    (permutationFn peers.length (seedFn transmissionID)) d
    (fun jj : Nat => durMul
      (((permutationFn peers.length (seedFn transmissionID)).getD jj 0 :
        Nat) : Int) d) peers 0 hall
  refine ⟨delayEntriesFrom (List.replicate peers.length 1)
    (permutationFn peers.length (seedFn transmissionID)) d 0 peers,
    ?_, hkv.1, ?_⟩
  · simp only [GetPeerIDToTransmissionDelaysForConfig]
    rw [hsched]
    dsimp only
    rw [hbuild]
    simp
  · rw [hkv.2, ← List.range_eq_range']
    have hcomp := map_getD_range_comp
      (permutationFn peers.length (seedFn transmissionID))
      (fun x : Nat => durMul (x : Int) d)
    rw [hlen] at hcomp
    rw [hcomp]
    exact hperm.map _

/-- Witness for C1 at a concrete instance: three distinct peers, the identity
permutation, `DeltaStage` 7. -/
theorem oneAtATime_delay_multiset_witness :
    ∃ m, GetPeerIDToTransmissionDelaysForConfig (fun n _ => List.range n)
        (fun _ => 0) ["A", "B", "C"] "exec-1" ⟨Schedule_OneAtATime, 7⟩ = .ok m ∧
      m.map Prod.fst = ["A", "B", "C"] ∧
      (m.map Prod.snd).Perm
        ((List.range (["A", "B", "C"] : List PeerID).length).map
          (fun j : Nat => durMul (j : Int) 7)) :=
  oneAtATime_delay_multiset (fun n _ => List.range n) (fun _ => 0)
    ["A", "B", "C"] "exec-1" 7 (by decide) (List.Perm.refl _)

end transmission

namespace transmission

/-- C5: for every list of distinct peer IDs and a config with schedule
`allAtOnce`, every peer appears in the returned map with delay 0 and the map's
size equals the peer list size. The external permutation is assumed, per its
contract, to be a permutation of `[0..N)`. -/
theorem allAtOnce_all_zero (permutationFn : Nat → Seed → List Nat)
    (seedFn : String → Seed) (peers : List PeerID) (transmissionID : String)
    (d : Int) (hnd : peers.Nodup)
    (hperm : (permutationFn peers.length (seedFn transmissionID)).Perm
      (List.range peers.length)) :
    ∃ m, GetPeerIDToTransmissionDelaysForConfig permutationFn seedFn peers
        transmissionID ⟨Schedule_AllAtOnce, d⟩ = .ok m ∧
      m.map Prod.fst = peers ∧ m.length = peers.length ∧
      ∀ e ∈ m, e.2 = 0 := by
  have hlen : (permutationFn peers.length (seedFn transmissionID)).length =
      peers.length := hperm.length_eq.trans (List.length_range peers.length)
  have hmem : ∀ x ∈ permutationFn peers.length (seedFn transmissionID),
      x < peers.length := fun x hx => List.mem_range.mp (hperm.mem_iff.mp hx)
  have hall : ∀ j, j < peers.length →
      delayFor (0 + j) [(peers.length : Int)]
          (permutationFn peers.length (seedFn transmissionID)) d =
        some ((fun _ : Nat => (0 : Int)) (0 + j)) := by
    intro j hj
    simp only [Nat.zero_add]
    have hjN : (permutationFn peers.length (seedFn transmissionID)).getD j 0 <
        peers.length := by
      rw [List.getD_eq_getElem _ 0 (by omega : j <
        (permutationFn peers.length (seedFn transmissionID)).length)]
      exact hmem _ (List.getElem_mem _)
    rw [delayFor, delayForGo_single d peers.length _ (by omega)]
  have hsched : createTransmissionSchedule Schedule_AllAtOnce peers.length =
      .ok [(peers.length : Int)] := by
    rw [createTransmissionSchedule, if_pos rfl]
  have hbuild := buildDelayMap_eq_append [(peers.length : Int)]
    (permutationFn peers.length (seedFn transmissionID)) d peers [] 0 hnd
    (by intro p hp e he; simp at he)
  have hkv := delayEntriesFrom_all_some [(peers.length : Int)]
    (permutationFn peers.length (seedFn transmissionID)) d
    (fun _ : Nat => (0 : Int)) peers 0 hall
  refine ⟨delayEntriesFrom [(peers.length : Int)]
    (permutationFn peers.length (seedFn transmissionID)) d 0 peers,
    ?_, hkv.1, ?_, ?_⟩
  · simp only [GetPeerIDToTransmissionDelaysForConfig]
    rw [hsched]
    dsimp only
    rw [hbuild]
    simp
  · have hL := congrArg List.length hkv.1
    rw [List.length_map] at hL
    exact hL
  · intro e he
    have : e.2 ∈ (delayEntriesFrom [(peers.length : Int)]
        (permutationFn peers.length (seedFn transmissionID)) d 0 peers).map
        Prod.snd := List.mem_map_of_mem Prod.snd he
    rw [hkv.2] at this
    rcases List.mem_map.mp this with ⟨a, _, hae⟩
    omega

/-- Witness for C5 at a concrete instance: three distinct peers, the identity
permutation. -/
theorem allAtOnce_all_zero_witness :
    ∃ m, GetPeerIDToTransmissionDelaysForConfig (fun n _ => List.range n)
        (fun _ => 0) ["A", "B", "C"] "exec-1" ⟨Schedule_AllAtOnce, 7⟩ = .ok m ∧
      m.map Prod.fst = ["A", "B", "C"] ∧
      m.length = (["A", "B", "C"] : List PeerID).length ∧
      ∀ e ∈ m, e.2 = 0 :=
  allAtOnce_all_zero (fun n _ => List.range n) (fun _ => 0)
    ["A", "B", "C"] "exec-1" 7 (by decide) (List.Perm.refl _)

/-- C3: for every `N ≥ 0` and both recognized schedule names,
`createTransmissionSchedule` returns a sequence of non-negative integers
summing to `N`, and consequently `delayFor` finds a bucket for every permuted
rank in `[0..N)` — the peer-omitted branch (`delayFor` returning `nil`) is
unreachable for valid ranks. -/
theorem schedule_sums_to_N_and_delayFor_total (scheduleType : String) (N : Nat)
    (d : Int)
    (h : scheduleType = Schedule_AllAtOnce ∨ scheduleType = Schedule_OneAtATime) :
    ∃ sched, createTransmissionSchedule scheduleType N = .ok sched ∧
      (∀ s ∈ sched, 0 ≤ s) ∧ sched.sum = (N : Int) ∧
      ∀ (position : Nat) (picked : List Nat), picked.getD position 0 < N →
        (delayFor position sched picked d).isSome = true := by
  have hgen : ∀ sched : List Int, sched.sum = (N : Int) →
      ∀ (position : Nat) (picked : List Nat), picked.getD position 0 < N →
        (delayFor position sched picked d).isSome = true := by
    intro sched hsum position picked hrank
    rw [delayFor]
    exact delayForGo_isSome d sched 0 0 _ (Int.natCast_nonneg _)
      (by rw [hsum]; omega)
  rcases h with h | h <;> subst h
  · refine ⟨[(N : Int)], ?_, ?_, ?_, ?_⟩
    · rw [createTransmissionSchedule, if_pos rfl]
    · intro s hs
      have : s = (N : Int) := by simpa using hs
      omega
    · simp
    · exact hgen _ (by simp)
  · refine ⟨List.replicate N 1, ?_, ?_, ?_, ?_⟩
    · rw [createTransmissionSchedule, if_neg (by decide), if_pos rfl]
    · intro s hs
      have : s = 1 := List.eq_of_mem_replicate hs
      omega
    · simp [List.sum_replicate]
    · exact hgen _ (by simp [List.sum_replicate])

/-- Witness for C3 at a concrete instance: `oneAtATime` with `N = 3`. -/
theorem schedule_sums_to_N_and_delayFor_total_witness :
    ∃ sched, createTransmissionSchedule Schedule_OneAtATime 3 = .ok sched ∧
      (∀ s ∈ sched, 0 ≤ s) ∧ sched.sum = ((3 : Nat) : Int) ∧
      ∀ (position : Nat) (picked : List Nat), picked.getD position 0 < 3 →
        (delayFor position sched picked 7).isSome = true :=
  schedule_sums_to_N_and_delayFor_total Schedule_OneAtATime 3 7 (Or.inr rfl)

/-- C4: for a fixed peer list (in a fixed order), fixed config and fixed
transmissionID, repeated calls to `GetPeerIDToTransmissionDelaysForConfig`
return identical maps: the computation is a pure deterministic function of its
inputs (the seed derivation and the permutation being deterministic functions
per their contracts), with no hidden randomness. -/
theorem delays_deterministic (permutationFn : Nat → Seed → List Nat)
    (seedFn : String → Seed) (peers1 peers2 : List PeerID)
    (tid1 tid2 : String) (tc1 tc2 : TransmissionConfig)
    (h1 : peers1 = peers2) (h2 : tid1 = tid2) (h3 : tc1 = tc2) :
    GetPeerIDToTransmissionDelaysForConfig permutationFn seedFn peers1 tid1 tc1 =
      GetPeerIDToTransmissionDelaysForConfig permutationFn seedFn peers2 tid2 tc2 := by
  subst h1
  subst h2
  subst h3
  rfl

/-- Witness for C4 at a concrete instance. -/
theorem delays_deterministic_witness :
    GetPeerIDToTransmissionDelaysForConfig (fun n _ => List.range n)
        (fun _ => 0) ["A", "B"] "exec-1" ⟨Schedule_OneAtATime, 7⟩ =
      GetPeerIDToTransmissionDelaysForConfig (fun n _ => List.range n)
        (fun _ => 0) ["A", "B"] "exec-1" ⟨Schedule_OneAtATime, 7⟩ :=
  delays_deterministic (fun n _ => List.range n) (fun _ => 0)
    ["A", "B"] ["A", "B"] "exec-1" "exec-1" ⟨Schedule_OneAtATime, 7⟩
    ⟨Schedule_OneAtATime, 7⟩ rfl rfl rfl

end transmission

namespace transmission

/-- Counterexample to C9: the DeltaStage string `"-5s"` parses as the negative
duration `-5s`, yet `ExtractTransmissionConfig` succeeds and returns the
negative `DeltaStage` — no non-negativity validation is performed. -/
theorem negative_deltaStage_accepted_cex :
    ParseDuration "-5s" = .ok (-5000000000) ∧
    ExtractTransmissionConfig ⟨"-5s", Schedule_OneAtATime⟩ =
      .ok ⟨Schedule_OneAtATime, -5000000000⟩ :=
  ⟨rfl, rfl⟩

/-- C9 as amended: `ExtractTransmissionConfig` accepts every DeltaStage string
that parses as a duration — negative durations included — whenever the
schedule/DeltaStage pair is not entirely empty; it performs no sign check. -/
theorem extract_accepts_parsed_deltaStage (config : RawTransmissionConfig)
    (d : Int)
    (hne : ¬(config.Schedule.length = 0 ∧ config.DeltaStage.length = 0))
    (hp : ParseDuration config.DeltaStage = .ok d) :
    ExtractTransmissionConfig config = .ok ⟨config.Schedule, d⟩ := by
  rw [ExtractTransmissionConfig, if_neg hne, hp]

/-- Witness for the amended C9 at the concrete input `DeltaStage = "-5s"`. -/
theorem extract_accepts_parsed_deltaStage_witness :
    ExtractTransmissionConfig ⟨"-5s", "oneAtATime"⟩ =
      .ok ⟨"oneAtATime", -5000000000⟩ :=
  extract_accepts_parsed_deltaStage ⟨"-5s", "oneAtATime"⟩ (-5000000000)
    (by decide) rfl

/-- C10: the `allAtOnce`/zero-DeltaStage default applies exactly when both the
`Schedule` and `DeltaStage` entries are empty; when `Schedule` is provided but
`DeltaStage` is absent (empty string), the call fails with the duration-parse
error rather than defaulting `DeltaStage` to zero. -/
theorem extract_default_only_when_both_empty (config : RawTransmissionConfig) :
    (config.Schedule.length = 0 ∧ config.DeltaStage.length = 0 →
      ExtractTransmissionConfig config = .ok ⟨Schedule_AllAtOnce, 0⟩) ∧
    (config.Schedule.length ≠ 0 → config.DeltaStage.length = 0 →
      ExtractTransmissionConfig config =
        .error ("failed to parse DeltaStage " ++ config.DeltaStage ++
          " as duration: " ++ ("time: invalid duration " ++ config.DeltaStage))) := by
  constructor
  · intro h
    rw [ExtractTransmissionConfig, if_pos h]
  · intro h1 h2
    have hds : config.DeltaStage = "" := by
      cases hc : config.DeltaStage with
      | mk l =>
        cases l with
        | nil => rfl
        | cons a as => rw [hc] at h2; simp [String.length] at h2
    rw [ExtractTransmissionConfig, if_neg (by intro hb; exact h1 hb.1), hds]
    rfl

/-- Witness for C10 at concrete inputs: both empty, and `Schedule` provided
with `DeltaStage` empty. -/
theorem extract_default_only_when_both_empty_witness :
    ExtractTransmissionConfig ⟨"", ""⟩ = .ok ⟨Schedule_AllAtOnce, 0⟩ ∧
    ExtractTransmissionConfig ⟨"", "oneAtATime"⟩ =
      .error ("failed to parse DeltaStage " ++ "" ++
        " as duration: " ++ ("time: invalid duration " ++ "")) :=
  ⟨(extract_default_only_when_both_empty ⟨"", ""⟩).1 (by decide),
   (extract_default_only_when_both_empty ⟨"", "oneAtATime"⟩).2
     (by decide) (by decide)⟩

end transmission

namespace mercurytransmitter

theorem packAndSend_networkCalled_req (p : Packer)
    (client : TransmitRequest → Except String TransmitResponse)
    (t : Transmission)
    (h : (packAndSend p client t).networkCalled = true) :
    ∃ rq, (packAndSend p client t).req = some rq := by
  cases hp : p t.configDigest t.seqNr t.report t.sigs with
  | error e =>
    rw [show packAndSend p client t =
      ⟨none, none, some ("Transmit: encode failed; " ++ e), false⟩ from by
        simp only [packAndSend, hp]] at h
    simp at h
  | ok payload =>
    cases hc : client ⟨payload, t.reportFormat⟩ with
    | ok resp =>
      rw [show packAndSend p client t =
        ⟨some ⟨payload, t.reportFormat⟩, some resp, none, true⟩ from by
          simp only [packAndSend, hp, hc]]
      exact ⟨_, rfl⟩
    | error e =>
      rw [show packAndSend p client t =
        ⟨some ⟨payload, t.reportFormat⟩, none, some e, true⟩ from by
          simp only [packAndSend, hp, hc]]
      exact ⟨_, rfl⟩

theorem transmit_networkCalled_req (jp ep : Packer)
    (client : TransmitRequest → Except String TransmitResponse)
    (t : Transmission)
    (h : (transmit jp ep client t).networkCalled = true) :
    ∃ rq, (transmit jp ep client t).req = some rq := by
  unfold transmit at h ⊢
  split_ifs at h ⊢
  · exact packAndSend_networkCalled_req jp client t h
  · exact packAndSend_networkCalled_req ep client t h

theorem runQueueIteration_err (jp ep : Packer)
    (client : TransmitRequest → Except String TransmitResponse)
    (st : LoopState) (t : Transmission) (e : String) (rq : TransmitRequest)
    (herr : (transmit jp ep client t).err = some e)
    (hreq : (transmit jp ep client t).req = some rq) :
    runQueueIteration jp ep client st (some t) false false =
      if st.queueClosed then
        .stop { st with connectionErrorCount := st.connectionErrorCount + 1 }
      else
        .next { st with connectionErrorCount := st.connectionErrorCount + 1,
                        queue := st.queue ++ [t],
                        backoffAttempt := st.backoffAttempt + 1 } true := by
  simp only [runQueueIteration, herr, hreq]
  by_cases hq : st.queueClosed
  · simp [hq]
  · simp [hq]

theorem runQueueIteration_err_nilreq (jp ep : Packer)
    (client : TransmitRequest → Except String TransmitResponse)
    (st : LoopState) (t : Transmission) (e : String)
    (herr : (transmit jp ep client t).err = some e)
    (hreq : (transmit jp ep client t).req = none) :
    runQueueIteration jp ep client st (some t) false false =
      .panicked { st with connectionErrorCount := st.connectionErrorCount + 1 } := by
  simp only [runQueueIteration, herr, hreq]
  rfl

theorem runQueueIteration_reply (jp ep : Packer)
    (client : TransmitRequest → Except String TransmitResponse)
    (st : LoopState) (t : Transmission) (res : TransmitResponse)
    (hok : (transmit jp ep client t).err = none)
    (hres : (transmit jp ep client t).res = some res) :
    runQueueIteration jp ep client st (some t) false false =
      .next (deletePush
        (if res.error = "" then
          { st with backoffAttempt := 0, successCount := st.successCount + 1 }
         else if res.code = DuplicateReport then
          { st with backoffAttempt := 0, successCount := st.successCount + 1,
                    duplicateCount := st.duplicateCount + 1 }
         else
          { st with backoffAttempt := 0, serverErrorCount := fun c =>
              if c = res.code then st.serverErrorCount c + 1
              else st.serverErrorCount c }) t.hash) false := by
  simp only [runQueueIteration, hok, hres, Option.getD_some]
  rfl

theorem deletePush_queue (s : LoopState) (h : Hash) :
    (deletePush s h).queue = s.queue := by
  unfold deletePush
  split <;> rfl

theorem deletePush_successCount (s : LoopState) (h : Hash) :
    (deletePush s h).successCount = s.successCount := by
  unfold deletePush
  split <;> rfl

theorem deletePush_duplicateCount (s : LoopState) (h : Hash) :
    (deletePush s h).duplicateCount = s.duplicateCount := by
  unfold deletePush
  split <;> rfl

theorem deletePush_connectionErrorCount (s : LoopState) (h : Hash) :
    (deletePush s h).connectionErrorCount = s.connectionErrorCount := by
  unfold deletePush
  split <;> rfl

theorem deletePush_full (s : LoopState) (h : Hash)
    (hfull : ¬ s.deleteQueue.length < s.deleteQueueCap) :
    (deletePush s h).deleteQueue = s.deleteQueue := by
  unfold deletePush
  rw [if_neg hfull]

theorem deletePush_room (s : LoopState) (h : Hash)
    (hroom : s.deleteQueue.length < s.deleteQueueCap) :
    (deletePush s h).deleteQueue = s.deleteQueue ++ [h] := by
  unfold deletePush
  rw [if_pos hroom]

theorem bForAttemptCore_bounds (mn mx : Int) (factor : ℚ) (jitter : Bool)
    (attempt : Nat) (rand : ℚ) (hle : mn ≤ mx) :
    mn ≤ bForAttemptCore mn mx factor jitter attempt rand ∧
    bForAttemptCore mn mx factor jitter attempt rand ≤ mx := by
  unfold bForAttemptCore
  split
  · exact ⟨hle, le_refl _⟩
  · split
    · exact ⟨hle, le_refl _⟩
    · split
      · exact ⟨le_refl _, hle⟩
      · split
        · exact ⟨hle, le_refl _⟩
        · refine ⟨by omega, by omega⟩

theorem bJitterVal_zero (mn : Int) (factor : ℚ) (rand : ℚ) :
    bJitterVal mn factor true 0 rand = (mn : ℚ) := by
  simp [bJitterVal]

theorem bForAttemptCore_zero (mn mx : Int) (factor : ℚ) (rand : ℚ)
    (h1 : mn < mx) (h2 : mn ≤ 9223372036854775807 - 512) :
    bForAttemptCore mn mx factor true 0 rand = mn := by
  unfold bForAttemptCore
  rw [if_neg (not_le.mpr h1)]
  rw [bJitterVal_zero]
  rw [if_neg (not_lt.mpr (by exact_mod_cast h2))]
  rw [Int.floor_intCast]
  rw [if_neg (lt_irrefl mn), if_neg (not_lt.mpr h1.le)]

theorem transmitBackoff_forAttempt_bounds (n : Nat) (r : ℚ) :
    5000000 ≤ transmitBackoff.forAttempt n r ∧
    transmitBackoff.forAttempt n r ≤ 1000000000 := by
  have h := bForAttemptCore_bounds 5000000 1000000000 2 true n r (by norm_num)
  simpa [Backoff.forAttempt, transmitBackoff] using h

theorem transmitBackoff_forAttempt_zero (r : ℚ) :
    transmitBackoff.forAttempt 0 r = 5000000 := by
  have h := bForAttemptCore_zero 5000000 1000000000 2 r (by norm_num) (by norm_num)
  simpa [Backoff.forAttempt, transmitBackoff] using h

theorem deleteBackoff_forAttempt_bounds (n : Nat) (r : ℚ) :
    1000000000 ≤ deleteBackoff.forAttempt n r ∧
    deleteBackoff.forAttempt n r ≤ 120000000000 := by
  have h := bForAttemptCore_bounds 1000000000 120000000000 2 true n r (by norm_num)
  simpa [Backoff.forAttempt, deleteBackoff] using h

theorem deleteBackoff_forAttempt_zero (r : ℚ) :
    deleteBackoff.forAttempt 0 r = 1000000000 := by
  have h := bForAttemptCore_zero 1000000000 120000000000 2 r (by norm_num) (by norm_num)
  simpa [Backoff.forAttempt, deleteBackoff] using h

end mercurytransmitter

namespace mercurytransmitter

/-- C6: whenever the network send returns a transport/connection error and the
loop context is not cancelled, the connection-error counter is incremented and
the record is pushed back onto the transmit queue; if the push fails because the
queue is closed the loop exits, otherwise the loop waits a backoff interval —
drawn from the loop's `{Min: 5ms, Max: 1s, Factor: 2, Jitter: true}` backoff,
which starts at exactly 5ms and always stays within `[5ms, 1s]` — before
popping the next record. -/
theorem transport_error_requeue_and_backoff (jp ep : Packer)
    (client : TransmitRequest → Except String TransmitResponse)
    (st : LoopState) (t : Transmission) (e : String)
    (herr : (transmit jp ep client t).err = some e)
    (hnet : (transmit jp ep client t).networkCalled = true) :
    (st.queueClosed = true →
      runQueueIteration jp ep client st (some t) false false =
        .stop { st with connectionErrorCount := st.connectionErrorCount + 1 }) ∧
    (st.queueClosed = false →
      runQueueIteration jp ep client st (some t) false false =
        .next { st with connectionErrorCount := st.connectionErrorCount + 1,
                        queue := st.queue ++ [t],
                        backoffAttempt := st.backoffAttempt + 1 } true) ∧
    transmitBackoff = ⟨5000000, 1000000000, 2, true⟩ ∧
    (∀ (n : Nat) (r : ℚ), 5000000 ≤ transmitBackoff.forAttempt n r ∧
      transmitBackoff.forAttempt n r ≤ 1000000000) ∧
    (∀ r : ℚ, transmitBackoff.forAttempt 0 r = 5000000) := by
  obtain ⟨rq, hreq⟩ := transmit_networkCalled_req jp ep client t hnet
  refine ⟨?_, ?_, rfl, transmitBackoff_forAttempt_bounds,
    transmitBackoff_forAttempt_zero⟩
  · intro hq
    rw [runQueueIteration_err jp ep client st t e rq herr hreq, if_pos hq]
  · intro hq
    rw [runQueueIteration_err jp ep client st t e rq herr hreq,
      if_neg (by rw [hq]; exact Bool.false_ne_true)]

/-- Witness for C6 at a concrete instance: a JSON record whose send fails at
the transport level, starting from a fresh open-queue state. -/
theorem transport_error_requeue_and_backoff_witness :
    runQueueIteration okPacker okPacker clientConnError st0 (some tJson)
        false false =
      .next { st0 with connectionErrorCount := st0.connectionErrorCount + 1,
                       queue := st0.queue ++ [tJson],
                       backoffAttempt := st0.backoffAttempt + 1 } true ∧
    transmitBackoff.forAttempt 0 (1 / 2) = 5000000 := by
  have h := transport_error_requeue_and_backoff okPacker okPacker
    clientConnError st0 tJson "connection refused" rfl rfl
  exact ⟨h.2.1 rfl, h.2.2.2.2 (1 / 2)⟩

/-- C2: evaluation of the code at the failing input — a record with the
unsupported report format `99`. `transmit` fails with an encoding error before
any network call and returns a nil request; `runQueueLoop` then increments the
connection-error counter and, logging the failure, dereferences the nil
request's `Payload` field and panics — before the queue push is ever reached.
So the record is not pushed back onto the transmit queue, but not because it is
handled like a server-returned error (metered by code, deletion requested, loop
continues): the transmit loop crashes instead. -/
theorem unsupported_format_panics_before_push :
    (transmit okPacker okPacker clientAccepts tBadFormat).networkCalled = false ∧
    (transmit okPacker okPacker clientAccepts tBadFormat).err =
      some "Transmit failed; unsupported report format" ∧
    (transmit okPacker okPacker clientAccepts tBadFormat).req = none ∧
    runQueueIteration okPacker okPacker clientAccepts st0 (some tBadFormat)
        false false =
      .panicked { st0 with connectionErrorCount := st0.connectionErrorCount + 1 } ∧
    ({ st0 with connectionErrorCount := st0.connectionErrorCount + 1 } :
      LoopState).queue = [] :=
  ⟨rfl, rfl, rfl, rfl, rfl⟩

/-- Counterexample to C7: a reply carrying the `DuplicateReport` code but an
empty error string increments only the success counter — the duplicate counter
stays at 0, because the duplicate branch is reached only when the reply's error
string is non-empty. -/
theorem duplicate_code_empty_error_cex :
    clientDuplicateEmptyError ⟨[], ReportFormatJSON⟩ =
      .ok ⟨"", DuplicateReport⟩ ∧
    ∃ st2, runQueueIteration okPacker okPacker clientDuplicateEmptyError st0
        (some tJson) false false = .next st2 false ∧
      st2.successCount = 1 ∧ st2.duplicateCount = 0 :=
  ⟨rfl, _, rfl, rfl, rfl⟩

/-- C7 as amended: when a send completes and the server reply carries a
non-empty error together with the `DuplicateReport` code, the success and
duplicate counters each increment exactly once, the record is not requeued, and
exactly one non-blocking attempt is made to enqueue the record's hash onto the
bounded delete-request channel (appended when there is room, dropped when the
channel is full). -/
theorem duplicate_reply_counts_and_requests_delete (jp ep : Packer)
    (client : TransmitRequest → Except String TransmitResponse)
    (st : LoopState) (t : Transmission) (res : TransmitResponse)
    (hok : (transmit jp ep client t).err = none)
    (hres : (transmit jp ep client t).res = some res)
    (herr : res.error ≠ "") (hcode : res.code = DuplicateReport) :
    ∃ st2, runQueueIteration jp ep client st (some t) false false =
        .next st2 false ∧
      st2.successCount = st.successCount + 1 ∧
      st2.duplicateCount = st.duplicateCount + 1 ∧
      st2.queue = st.queue ∧
      st2.connectionErrorCount = st.connectionErrorCount ∧
      (st.deleteQueue.length < st.deleteQueueCap →
        st2.deleteQueue = st.deleteQueue ++ [t.hash]) ∧
      (¬ st.deleteQueue.length < st.deleteQueueCap →
        st2.deleteQueue = st.deleteQueue) := by
  have hit := runQueueIteration_reply jp ep client st t res hok hres
  rw [if_neg herr, if_pos hcode] at hit
  refine ⟨_, hit, ?_, ?_, ?_, ?_, ?_, ?_⟩
  · rw [deletePush_successCount]
  · rw [deletePush_duplicateCount]
  · rw [deletePush_queue]
  · rw [deletePush_connectionErrorCount]
  · intro hroom
    rw [deletePush_room _ t.hash (by exact hroom)]
  · intro hfull
    rw [deletePush_full _ t.hash (by exact hfull)]

/-- Witness for the amended C7 at a concrete instance: a duplicate reply with a
non-empty error string, from a fresh state with room in the delete channel. -/
theorem duplicate_reply_counts_witness :
    ∃ st2, runQueueIteration okPacker okPacker clientDuplicate st0 (some tJson)
        false false = .next st2 false ∧
      st2.successCount = st0.successCount + 1 ∧
      st2.duplicateCount = st0.duplicateCount + 1 ∧
      st2.queue = st0.queue ∧
      st2.connectionErrorCount = st0.connectionErrorCount ∧
      (st0.deleteQueue.length < st0.deleteQueueCap →
        st2.deleteQueue = st0.deleteQueue ++ [tJson.hash]) ∧
      (¬ st0.deleteQueue.length < st0.deleteQueueCap →
        st2.deleteQueue = st0.deleteQueue) :=
  duplicate_reply_counts_and_requests_delete okPacker okPacker clientDuplicate
    st0 tJson ⟨"duplicate report", DuplicateReport⟩ rfl rfl (by decide) rfl

theorem runDeleteRetry_spec (h : Hash) (k : Nat) :
    ∀ st : DeleteState,
      (runDeleteRetry h k st).deleteErrorCount = st.deleteErrorCount + k ∧
      (runDeleteRetry h k st).backoffAttempt = 0 ∧
      (runDeleteRetry h k st).deletedHashes = st.deletedHashes ++ [h] := by
  induction k with
  | zero => intro st; exact ⟨rfl, rfl, rfl⟩
  | succ n ih =>
    intro st
    have h2 := ih
      { st with
          busy := st.busy + 1,
          deleteErrorCount := st.deleteErrorCount + 1,
          backoffAttempt := st.backoffAttempt + 1 }
    refine ⟨?_, h2.2.1, h2.2.2⟩
    simp only [runDeleteRetry]
    rw [h2.1]
    dsimp only
    omega

/-- C8: for a hash whose persistence `Delete` fails exactly `k` times and then
succeeds, with no shutdown signal during the waits, the delete loop retries
until the delete succeeds (the hash ends up deleted), the delete-error counter
increments exactly `k` times (reading exactly 2 for `k = 2` from a fresh
state), the backoff is reset to its floor after the success, and the retry
backoff is the loop's `{Min: 1s, Max: 120s, Factor: 2, Jitter: true}` backoff,
which starts at exactly 1s and always stays within `[1s, 120s]`. -/
theorem delete_retry_counts_and_backoff (h : Hash) (k : Nat) (st : DeleteState) :
    (runDeleteRetry h k st).deleteErrorCount = st.deleteErrorCount + k ∧
    (runDeleteRetry h k st).backoffAttempt = 0 ∧
    (runDeleteRetry h k st).deletedHashes = st.deletedHashes ++ [h] ∧
    (runDeleteRetry 9 2 ⟨0, 0, 0, []⟩).deleteErrorCount = 2 ∧
    deleteBackoff = ⟨1000000000, 120000000000, 2, true⟩ ∧
    (∀ (n : Nat) (r : ℚ), 1000000000 ≤ deleteBackoff.forAttempt n r ∧
      deleteBackoff.forAttempt n r ≤ 120000000000) ∧
    (∀ r : ℚ, deleteBackoff.forAttempt 0 r = 1000000000) := by
  obtain ⟨a, b, c⟩ := runDeleteRetry_spec h k st
  exact ⟨a, b, c, rfl, rfl, deleteBackoff_forAttempt_bounds,
    deleteBackoff_forAttempt_zero⟩

end mercurytransmitter
